import Mathlib

/-!
Shallow embedding of the `dhcp4` options codec (`options.go`) and of the
`dhcp4client` dispatcher / retry policy (`client.go`), with theorems checking
the natural-language specification against the code.

Bytes are modelled as `Nat` (values < 256 on the wire); byte buffers as
`List Nat`.  The Go `Options` map (`map[OptionCode][]byte`) is modelled as an
association list with unique keys, new keys appended at the end; Go map
equality is extensional, and the association-list representative is canonical
for the operations that build it here.
-/

set_option autoImplicit false

namespace Dhcp4

/-- Option codes are 8-bit identifiers, modelled as `Nat`. -/
abbrev OptionCode := Nat

/-- The `Pad` option code (0). -/
def Pad : OptionCode := 0

/-- The `End` option code (255). -/
def End : OptionCode := 255

/-- The `zeroLengthOptions` set from `options.go`: membership of a code in
`map[OptionCode]struct{}{Pad: {}, End: {}}`. -/
def zeroLengthOptions (c : OptionCode) : Bool :=
  c = Pad || c = End

/-- Errors of the options codec: `ErrOptionNotPresent` and
`ErrInvalidOptions` from the `dhcp4` package. -/
inductive DhcpError where
  | optionNotPresent
  | invalidOptions
  deriving DecidableEq, Repr

/-- The `Options` map, modelled as an association list from option code to
value bytes. -/
abbrev Options := List (OptionCode × List Nat)

/-- Go map lookup `v, ok := o[key]` on the association-list model. -/
def optionsFind (o : Options) (key : OptionCode) : Option (List Nat) :=
  match o with
  | [] => none
  | (k, v) :: rest => if k = key then some v else optionsFind rest key

/-- The `Options.AddRaw` operation from `options.go`: `o[key] = append(o[key], value...)`.
If the key is present its value is extended in place; otherwise the key is
inserted (with `append(nil, value...)` as its value), becoming present even
when `value` is empty. -/
def optionsAddRaw (o : Options) (key : OptionCode) (value : List Nat) : Options :=
  match o with
  | [] => [(key, value)]
  | (k, v) :: rest =>
      if k = key then (k, v ++ value) :: rest
      else (k, v) :: optionsAddRaw rest key value

/-- The `Options.Get` operation from `options.go`: `ErrOptionNotPresent` when the key is
absent; an empty byte slice when the stored value has zero length; the stored
value otherwise. -/
def optionsGet (o : Options) (key : OptionCode) : Except DhcpError (List Nat) :=
  match optionsFind o key with
  | none => .error .optionNotPresent
  | some v => if v.length = 0 then .ok [] else .ok v

/-- The `for buf.Len() >= 2` loop of `Options.Unmarshal` from `options.go`,
together with the trailing-bytes check after it.  The buffer (`util.Buffer`,
modelled from the spec as the list of unread bytes: `Len` is the number of
remaining bytes, `Read8` pops the first byte, `Consume n` takes `n` bytes and
fails when fewer remain) is the list argument; the `Options` being filled is
the accumulator.  Returns the filled map together with the returned error, if
any. -/
def optionsUnmarshalLoop (o : Options) : List Nat → Options × Option DhcpError
  | [] => (o, none)
  | [_] => (o, some .invalidOptions)
  | code :: len :: rest =>
      if zeroLengthOptions code then
        optionsUnmarshalLoop (optionsAddRaw o code []) (len :: rest)
      else if len = 0 then
        optionsUnmarshalLoop o rest
      else if rest.length < len then
        (o, some .invalidOptions)
      else
        optionsUnmarshalLoop (optionsAddRaw o code (rest.take len)) (rest.drop len)
termination_by l => l.length
decreasing_by
  · simp
  · simp; omega
  · simp
    have : (List.drop len rest).length = rest.length - len := List.length_drop len rest
    omega

/-- The full `Options.Unmarshal` from `options.go`: starts from a freshly made empty
map and runs the decode loop over the whole input buffer. -/
def optionsUnmarshal (buf : List Nat) : Options × Option DhcpError :=
  optionsUnmarshalLoop [] buf

/-- The two failure cases of `Options.Unmarshal` as the spec states them,
expressed over the parse structure: a declared option length exceeding the
bytes remaining in the buffer, or a lone trailing byte left over after the
main loop (which requires at least 2 remaining bytes to continue). -/
def optionsMalformed : List Nat → Bool
  | [] => false
  | [_] => true
  | code :: len :: rest =>
      if zeroLengthOptions code then optionsMalformed (len :: rest)
      else if len = 0 then optionsMalformed rest
      else if rest.length < len then true
      else optionsMalformed (rest.drop len)
termination_by l => l.length
decreasing_by
  · simp
  · simp; omega
  · simp
    have : (List.drop len rest).length = rest.length - len := List.length_drop len rest
    omega

/-- The `Options.sortedKeys` helper from `options.go`: the keys of the map, sorted in
ascending order (`sort.Sort(sort.IntSlice(codes))`). -/
def sortedKeys (o : Options) : List Nat :=
  List.insertionSort (· ≤ ·) (o.map Prod.fst)

/-- The inner chunking loop of `Options.Marshal` from `options.go`, for one
option `code` with value `data`, writing into the buffer `acc`:

    for len(data) >= 0 {
      b.Write8(uint8(code))
      if _, ok := zeroLengthOptions[OptionCode(code)]; ok { continue }
      n := len(data)
      if n > math.MaxUint8 { n = 255 }
      b.Write8(uint8(n)); b.WriteBytes(data[:n]); data = data[n:]
    }

The loop exits only when its guard `len(data) >= 0` is false, so the
embedding is fuel-indexed: `some buf` is returned when the guard fails with
`buf` the bytes written, `none` when the fuel runs out with the loop still
running. -/
def marshalChunkLoop (code : Nat) : List Nat → List Nat → Nat → Option (List Nat)
  | _, _, 0 => none
  | data, acc, fuel + 1 =>
      if data.length ≥ 0 then
        let acc' := acc ++ [code]
        if zeroLengthOptions code then
          marshalChunkLoop code data acc' fuel
        else
          let n := data.length
          let n := if n > 255 then 255 else n
          marshalChunkLoop code (data.drop n) (acc' ++ [n] ++ data.take n) fuel
      else
        some acc

/-- The `Options.Marshal` operation from `options.go`: iterate the sorted keys and run the
chunking loop for each key's value, threading the output buffer.  Fuel-indexed
like `marshalChunkLoop`; `none` means some chunking loop was still running
when the fuel ran out. -/
def optionsMarshal (o : Options) (fuel : Nat) : Option (List Nat) :=
  (sortedKeys o).foldl
    (fun buf code =>
      match buf with
      | none => none
      | some acc => marshalChunkLoop code ((optionsFind o code).getD []) acc fuel)
    (some [])

/-! ## Retry policy (`Client.retryFn` in `client.go`) -/

/-- Outcomes of one wrapped dispatch attempt (`fn()` inside `Client.retryFn`):
`nil`, `context.DeadlineExceeded`, or any other error (identified by a
number). -/
inductive AttemptOutcome where
  | ok
  | deadlineExceeded
  | failure (e : Nat)
  deriving DecidableEq, Repr

/-- The loop of `Client.retryFn` from `client.go`:

    for i := 0; i < c.retry || c.retry < 0; i++ {
      switch err := fn(); err {
      case nil: return nil
      case context.DeadlineExceeded: // retry
      default: return err
      }
    }
    return context.DeadlineExceeded

`fn i` is the result of the `i`-th invocation of the wrapped attempt, counted
from 0.  The embedding is fuel-indexed because the loop is unbounded when
`retry` is negative; it returns the function's result paired with the number
of times `fn` was invoked, or `none` when the fuel runs out with the loop
still running. -/
def retryFnLoop (retry : Int) (fn : Nat → AttemptOutcome) :
    Nat → Nat → Option (AttemptOutcome × Nat)
  | _, 0 => none
  | i, fuel + 1 =>
      if (i : Int) < retry ∨ retry < 0 then
        match fn i with
        | .ok => some (.ok, i + 1)
        | .deadlineExceeded => retryFnLoop retry fn (i + 1) fuel
        | .failure e => some (.failure e, i + 1)
      else
        some (.deadlineExceeded, i)

/-- `Client.retryFn`: the retry loop started at `i = 0`. -/
def retryFn (retry : Int) (fn : Nat → AttemptOutcome) (fuel : Nat) :
    Option (AttemptOutcome × Nat) :=
  retryFnLoop retry fn 0 fuel

/-! ## Dispatcher read loop (`Client.sendAndRead` in `client.go`) -/

/-- A decoded response packet as the dispatcher's read loop sees it: its
transaction id, and an abstract payload distinguishing packets. -/
structure RecvPacket where
  transactionID : Nat
  payload : Nat
  deriving DecidableEq, Repr

/-- One observation of the read loop in `Client.sendAndRead`, in program
order: either the top-of-loop `select` sees `timeoutCtx.Done()` (because the
attempt timeout elapsed or because the parent context was canceled), or a
read completes with a short-deadline timeout, a hard error, an undecodable
datagram, or a decoded packet.  For a decoded matching packet,
`sendBlockedCanceled` records the delivery race: `true` means the
non-blocking send failed and `ctx.Done()` won the blocking `select`. -/
inductive ReadEvent where
  | deadline
  | parentCanceled
  | readTimeout
  | readError (e : Nat)
  | badDecode
  | packet (pkt : RecvPacket) (sendBlockedCanceled : Bool)

/-- How one dispatch attempt (the closure passed to `retryFn` in
`Client.sendAndRead`) ends. -/
inductive AttemptResult where
  | stillReading
  | ok
  | deadlineExceeded
  | canceled
  | readFailed (e : Nat)
  deriving DecidableEq, Repr

/-- The read loop of `Client.sendAndRead` from `client.go`, over a trace of
observations.  `delivered` is the list of packets sent on `out` so far and
`numPackets` the loop's matched-packet counter; `xid` is the outgoing
packet's TransactionID.  Mirrors the source loop: on `timeoutCtx.Done()`,
success if `numPackets > 0`, else `timeoutCtx.Err()`; transient read
timeouts and undecodable datagrams continue the loop; a hard read error
aborts; a decoded packet with the wrong TransactionID is dropped and the
loop continues; a matching packet increments the counter and is delivered,
unless the delivery race is lost to cancellation. -/
def sendAndReadLoop (xid : Nat) :
    List ReadEvent → List RecvPacket → Nat → List RecvPacket × AttemptResult
  | [], delivered, _ => (delivered, .stillReading)
  | .deadline :: _, delivered, numPackets =>
      (delivered, if numPackets > 0 then .ok else .deadlineExceeded)
  | .parentCanceled :: _, delivered, numPackets =>
      (delivered, if numPackets > 0 then .ok else .canceled)
  | .readTimeout :: rest, delivered, numPackets =>
      sendAndReadLoop xid rest delivered numPackets
  | .readError e :: _, delivered, _ => (delivered, .readFailed e)
  | .badDecode :: rest, delivered, numPackets =>
      sendAndReadLoop xid rest delivered numPackets
  | .packet pkt blocked :: rest, delivered, numPackets =>
      if pkt.transactionID ≠ xid then sendAndReadLoop xid rest delivered numPackets
      else if blocked then (delivered, .canceled)
      else sendAndReadLoop xid rest (delivered ++ [pkt]) (numPackets + 1)

/-- One dispatch attempt: the read loop started with nothing delivered. -/
def sendAndRead (xid : Nat) (events : List ReadEvent) : List RecvPacket × AttemptResult :=
  sendAndReadLoop xid events [] 0

/-! ## Request packet construction (`Client.RequestPacket` in `client.go`) -/

/-- Modelled from the spec: the `dhcp4.BootRequest` op value used by
`dhcp4.NewPacket(dhcp4.BootRequest)` (the packet layout is an external
collaborator, §2 of the spec). -/
def BootRequest : Nat := 1

/-- Modelled from the spec: the `dhcp4.Packet` external collaborator with the
fields the client core touches (§3 of the spec): TransactionID, CHAddr, a
Broadcast flag, CIAddr/SIAddr/YIAddr and an Options value.  Addresses and the
transaction id are byte lists. -/
structure Packet where
  op : Nat
  transactionID : List Nat
  broadcast : Bool
  ciaddr : List Nat
  siaddr : List Nat
  yiaddr : List Nat
  chaddr : List Nat
  options : Options
  deriving DecidableEq, Repr

/-- Modelled from the spec: `dhcp4.NewPacket` creates a fresh packet with the
given op, zeroed fields, broadcast off and an empty options map. -/
def newPacket (op : Nat) : Packet :=
  { op := op
    transactionID := [0, 0, 0, 0]
    broadcast := false
    ciaddr := [0, 0, 0, 0]
    siaddr := [0, 0, 0, 0]
    yiaddr := [0, 0, 0, 0]
    chaddr := []
    options := [] }

/-- Modelled from the spec: the option code `dhcp4.OptionDHCPMessageType`
(RFC 2132 code 53). -/
def OptionDHCPMessageType : OptionCode := 53

/-- Modelled from the spec: the option code
`dhcp4.OptionMaximumDHCPMessageSize` (RFC 2132 code 57). -/
def OptionMaximumDHCPMessageSize : OptionCode := 57

/-- Modelled from the spec: the option code `dhcp4.OptionRequestedIPAddress`
(RFC 2132 code 50). -/
def OptionRequestedIPAddress : OptionCode := 50

/-- Modelled from the spec: the option code `dhcp4.OptionServerIdentifier`
(RFC 2132 code 54). -/
def OptionServerIdentifier : OptionCode := 54

/-- The `maxMessageSize` constant from `client.go` (1500). -/
def maxMessageSize : Nat := 1500

/-- Modelled from the spec: the bytes `dhcp4opts.DHCPRequest` marshals to —
the single DHCP-message-type byte for Request (3). -/
def dhcpRequestBytes : List Nat := [3]

/-- Modelled from the spec: the bytes `dhcp4opts.Uint16 n` marshals to —
the two big-endian bytes of `n`. -/
def uint16Bytes (n : Nat) : List Nat := [n / 256 % 256, n % 256]

/-- Modelled from the spec: `dhcp4opts.IP` marshals to the 4 address bytes
themselves. -/
def ipBytes (a : List Nat) : List Nat := a

/-- Modelled from the spec: `dhcp4opts.GetServerIdentifier` retrieves the
server-identifier option from an Options value, failing when the option is
absent (spec §4.4: the server identifier is echoed back only if present on
the input packet). -/
def getServerIdentifier (o : Options) : Except DhcpError (List Nat) :=
  optionsGet o OptionServerIdentifier

/-- `Client.RequestPacket` from `client.go`, for a client whose link has
hardware address `chaddr`, applied to the offer (or ack) being responded to.
Each `Options.Add` call is `AddRaw` of the marshalled value, as in
`options.go`.  The TransactionID assignment is modelled from the spec: the
source line reads `reply.TransactionID` where no identifier `reply` is in
scope (see spec §9); the spec's stated intent is to copy from the input
packet. -/
def requestPacket (chaddr : List Nat) (offer : Packet) : Packet :=
  let packet := newPacket BootRequest
  let packet :=
    { packet with
        chaddr := chaddr
        transactionID := offer.transactionID
        ciaddr := offer.ciaddr
        siaddr := offer.siaddr
        broadcast := true }
  let opts := optionsAddRaw packet.options OptionDHCPMessageType dhcpRequestBytes
  let opts := optionsAddRaw opts OptionMaximumDHCPMessageSize (uint16Bytes maxMessageSize)
  let opts := optionsAddRaw opts OptionRequestedIPAddress (ipBytes offer.yiaddr)
  let opts :=
    match getServerIdentifier offer.options with
    | .ok sid => optionsAddRaw opts OptionServerIdentifier (ipBytes sid)
    | .error _ => opts
  { packet with options := opts }

/-! ## Helper lemmas -/

/-- The chunking loop of `Options.Marshal` never finishes, whatever the code,
data, buffer contents and fuel: its guard `len(data) >= 0` can never become
false. -/
lemma marshalChunkLoop_eq_none (code : Nat) :
    ∀ (fuel : Nat) (data acc : List Nat), marshalChunkLoop code data acc fuel = none := by
  intro fuel
  induction fuel with
  | zero => intro data acc; rfl
  | succ n ih =>
      intro data acc
      simp only [marshalChunkLoop, Nat.zero_le, ge_iff_le, if_true]
      split <;> exact ih _ _

/-- The `Options.Get` operation returns `ErrOptionNotPresent` exactly when the key is not in
the map. -/
lemma optionsGet_error_iff (o : Options) (key : OptionCode) :
    optionsGet o key = .error .optionNotPresent ↔ optionsFind o key = none := by
  cases h : optionsFind o key with
  | none => simp [optionsGet, h]
  | some v =>
      simp only [optionsGet, h]
      constructor
      · intro hv; split at hv <;> simp_all
      · intro hv; simp at hv

/-- The decode loop's returned error does not depend on the options
accumulated so far: it is `some invalidOptions` exactly when the remaining
buffer is malformed (declared length overruns the remaining bytes, or a lone
trailing byte is left when fewer than 2 bytes remain). -/
lemma optionsUnmarshalLoop_snd (buf : List Nat) : ∀ (o : Options),
    (optionsUnmarshalLoop o buf).2 =
      (if optionsMalformed buf then some DhcpError.invalidOptions else none) := by
  induction buf using optionsMalformed.induct with
  | case1 => intro o; simp [optionsUnmarshalLoop, optionsMalformed]
  | case2 b => intro o; simp [optionsUnmarshalLoop, optionsMalformed]
  | case3 code len rest hzero ih =>
      intro o
      simp only [optionsUnmarshalLoop, optionsMalformed, hzero, if_true]
      exact ih _
  | case4 code rest hzero ih =>
      intro o
      simp only [optionsUnmarshalLoop, optionsMalformed, hzero]
      simp only [if_false, reduceIte]
      exact ih _
  | case5 code len rest hzero hlen hover =>
      intro o
      simp only [optionsUnmarshalLoop, optionsMalformed, hzero, hlen, hover]
      simp [hzero, hlen, hover]
  | case6 code len rest hzero hlen hover ih =>
      intro o
      simp only [optionsUnmarshalLoop, optionsMalformed]
      simp only [hzero, hlen, hover, if_false, reduceIte]
      exact ih _

/-! ## Claim theorems -/

/-- C1.  The claim states that the `Options.Marshal` chunking loop terminates,
emitting one TLV per chunk and, for a zero-length code, a single code byte.
On the code this is false: the loop's guard `len(data) >= 0` can never become
false, so for every option code (zero-length or not), every value and every
amount of fuel, the loop is still running — it re-emits the code byte (and,
once the value is exhausted, `code, 0x00` pairs) forever. -/
theorem marshal_chunk_loop_never_terminates (code : Nat) (data acc : List Nat) (fuel : Nat) :
    marshalChunkLoop code data acc fuel = none :=
  marshalChunkLoop_eq_none code fuel data acc

/-- C2.  The claim states `Unmarshal (Marshal v) = v` for suitable `v`.  On
the code, `Marshal` of the one-entry map `{5 ↦ [42]}` never produces a buffer
at all — for every amount of fuel its chunking loop is still running — so the
round trip cannot even start. -/
theorem optionsMarshal_singleton_diverges :
    ∀ fuel : Nat, optionsMarshal [(5, [42])] fuel = none := by
  intro fuel
  have h : sortedKeys [(5, [42])] = [5] := rfl
  simp [optionsMarshal, h, optionsFind, marshalChunkLoop_eq_none]

/-- C5, counterexample.  The claim states that decoding the buffer
`0x00 0xFF` succeeds; in fact `Options.Unmarshal` returns
`ErrInvalidOptions` on it: after the `Pad` byte is consumed, a single byte
remains, which is below the decode loop's two-byte minimum and trips the
trailing-bytes check. -/
theorem unmarshal_pad_end_fails :
    (optionsUnmarshal [0, 255]).2 = some DhcpError.invalidOptions := by
  simp [optionsUnmarshal, optionsUnmarshalLoop, zeroLengthOptions, Pad, End, optionsAddRaw]

/-- C5, amended.  Decoding the two-byte buffer `0x00 0xFF` records an empty
value for `Pad` (consuming no length byte) and then fails with
`ErrInvalidOptions`: the remaining lone `0xFF` byte is below the loop's
two-byte minimum and is reported as a trailing byte. -/
theorem unmarshal_pad_end_result :
    optionsUnmarshal [0, 255] = ([(Pad, [])], some DhcpError.invalidOptions) := by
  simp [optionsUnmarshal, optionsUnmarshalLoop, zeroLengthOptions, Pad, End, optionsAddRaw]

/-- C8.  `Options.Unmarshal` fails, always with the invalid-options error,
exactly in the two cases described by `optionsMalformed`: a declared option
length exceeding the bytes remaining in the buffer, or a lone trailing byte
left after the main loop (which requires at least 2 remaining bytes to
continue); otherwise it returns no error. -/
theorem unmarshal_error_characterization (buf : List Nat) :
    (optionsUnmarshal buf).2 =
      (if optionsMalformed buf then some DhcpError.invalidOptions else none) :=
  optionsUnmarshalLoop_snd buf []

/-- C9.  When a non-zero-length option code is followed by a declared length
of 0, the decode loop records no entry for that occurrence, does not fail, and
continues right after the two bytes, from any intermediate state. -/
theorem unmarshal_skips_zero_declared_length (o : Options) (code : Nat) (rest : List Nat)
    (h : zeroLengthOptions code = false) :
    optionsUnmarshalLoop o (code :: 0 :: rest) = optionsUnmarshalLoop o rest := by
  simp [optionsUnmarshalLoop, h]

/-- Witness for C9 at the concrete buffer `53 0x00`: the two bytes are skipped
and decoding proceeds on the empty remainder. -/
theorem unmarshal_skips_zero_declared_length_witness :
    optionsUnmarshalLoop [] [53, 0] = optionsUnmarshalLoop [] [] :=
  unmarshal_skips_zero_declared_length [] 53 [] (by decide)

/-- C10.  `Options.Get` returns `ErrOptionNotPresent` exactly when the key is
absent from the map, and a present key whose stored value is empty yields an
empty byte slice with no error. -/
theorem get_absent_iff_and_empty (o : Options) (key : OptionCode) :
    (optionsGet o key = .error .optionNotPresent ↔ optionsFind o key = none) ∧
    (optionsFind o key = some [] → optionsGet o key = .ok []) := by
  refine ⟨optionsGet_error_iff o key, ?_⟩
  intro h
  simp [optionsGet, h]

/-- Witness for C10 on the map `{80 ↦ []}`: the key is present with an empty
value and `Get` returns the empty slice, not `ErrOptionNotPresent`. -/
theorem get_absent_iff_and_empty_witness :
    optionsGet [(80, ([] : List Nat))] 80 = .ok [] :=
  (get_absent_iff_and_empty [(80, [])] 80).2 (by decide)

/-- With every attempt failing with deadline-exceeded, the loop started at `i`
with `i ≤ r` finishes with `DeadlineExceeded` after invoking the attempt
`r - i` more times (so `r` times in total from `i = 0`), provided enough
fuel. -/
lemma retryFnLoop_all_deadline (r : Nat) :
    ∀ (fuel i : Nat), i ≤ r → r - i < fuel →
      retryFnLoop (r : Int) (fun _ => AttemptOutcome.deadlineExceeded) i fuel =
        some (.deadlineExceeded, r) := by
  intro fuel
  induction fuel with
  | zero => intro i _ h; omega
  | succ f ih =>
      intro i hir hfuel
      by_cases hlt : i < r
      · have : ((i : Int) < (r : Int) ∨ (r : Int) < 0) := by left; exact_mod_cast hlt
        simp only [retryFnLoop, this, if_true]
        exact ih (i + 1) (by omega) (by omega)
      · have hi : i = r := by omega
        have hcond : ¬ ((i : Int) < (r : Int) ∨ (r : Int) < 0) := by
          push_neg
          constructor
          · exact_mod_cast Nat.not_lt.mp hlt
          · exact_mod_cast Nat.zero_le r
        simp only [retryFnLoop]
        rw [if_neg hcond, hi]

/-- C4.  The claim states the wrapped attempt is invoked `retryCount + 1`
times before the bounded policy gives up, and that a successful attempt makes
the policy succeed.  On the code the loop bound is `i < c.retry`, so the
attempt is invoked exactly `retryCount` times when each invocation fails with
deadline-exceeded; in particular with `retry = 0` the attempt is never
invoked at all and the policy reports `DeadlineExceeded` even though the
attempt would have succeeded.  The remaining clauses of the claim do hold: a
non-deadline error aborts immediately and is propagated unchanged after one
invocation, a success ends the policy successfully, and a negative count
retries without bound (the loop is still running after 50 invocations on 50
units of fuel). -/
theorem retryFn_invocation_counts :
    (∀ (r fuel : Nat), r < fuel →
        retryFn (r : Int) (fun _ => AttemptOutcome.deadlineExceeded) fuel =
          some (.deadlineExceeded, r)) ∧
    retryFn 0 (fun _ => AttemptOutcome.ok) 5 = some (.deadlineExceeded, 0) ∧
    retryFn 3 (fun i => if i = 0 then AttemptOutcome.failure 7 else .deadlineExceeded) 10 =
      some (.failure 7, 1) ∧
    retryFn 3 (fun _ => AttemptOutcome.ok) 10 = some (.ok, 1) ∧
    retryFn (-1) (fun _ => AttemptOutcome.deadlineExceeded) 50 = none := by
  refine ⟨?_, by decide, by decide, by decide, by decide⟩
  intro r fuel h
  exact retryFnLoop_all_deadline r fuel 0 (Nat.zero_le r) (by omega)

/-- Witness for C4: with `retry = 3` and every attempt failing with
deadline-exceeded, the policy invokes the attempt exactly 3 times (not 4) and
yields deadline-exceeded. -/
theorem retryFn_invocation_counts_witness :
    retryFn 3 (fun _ => AttemptOutcome.deadlineExceeded) 10 =
      some (.deadlineExceeded, 3) :=
  retryFn_invocation_counts.1 3 10 (by decide)

/-- Invariant of the read loop: provided the matched-packet counter equals
the number of packets delivered so far, a `DeadlineExceeded` outcome implies
nothing was ever delivered, and an `ok` outcome implies at least one packet
was delivered. -/
lemma sendAndReadLoop_outcome (xid : Nat) :
    ∀ (events : List ReadEvent) (delivered : List RecvPacket) (numPackets : Nat),
      numPackets = delivered.length →
      ((sendAndReadLoop xid events delivered numPackets).2 = .deadlineExceeded →
        (sendAndReadLoop xid events delivered numPackets).1 = []) ∧
      ((sendAndReadLoop xid events delivered numPackets).2 = .ok →
        (sendAndReadLoop xid events delivered numPackets).1 ≠ []) := by
  intro events
  induction events with
  | nil => intro delivered n h; simp [sendAndReadLoop]
  | cons ev rest ih =>
      intro delivered n h
      cases ev with
      | deadline =>
          by_cases hn : n > 0
          · constructor
            · intro hres; simp [sendAndReadLoop, hn] at hres
            · intro _; simp [sendAndReadLoop]
              intro hnil; rw [hnil] at h; simp at h; omega
          · constructor
            · intro _; simp [sendAndReadLoop]
              have : n = 0 := by omega
              rw [this] at h
              exact (List.length_eq_zero.mp h.symm)
            · intro hres; simp [sendAndReadLoop, hn] at hres
      | parentCanceled =>
          by_cases hn : n > 0
          · constructor
            · intro hres; simp [sendAndReadLoop, hn] at hres
            · intro _; simp [sendAndReadLoop]
              intro hnil; rw [hnil] at h; simp at h; omega
          · constructor
            · intro hres; simp [sendAndReadLoop, hn] at hres
            · intro hres; simp [sendAndReadLoop, hn] at hres
      | readTimeout => exact ih delivered n h
      | readError e => simp [sendAndReadLoop]
      | badDecode => exact ih delivered n h
      | packet pkt blocked =>
          by_cases hx : pkt.transactionID ≠ xid
          · have := ih delivered n h
            simpa [sendAndReadLoop, hx] using this
          · cases blocked with
            | true => simp [sendAndReadLoop, hx]
            | false =>
                have := ih (delivered ++ [pkt]) (n + 1) (by simp [h])
                simpa [sendAndReadLoop, hx] using this

/-- C6.  When the per-attempt deadline elapses at the top-of-loop check: from
any loop state whose matched counter agrees with the delivered list, the
attempt ends successfully if at least one matching packet was delivered and
with the deadline-exceeded error if none was; consequently a whole attempt
ends `DeadlineExceeded` only with an empty delivered list, and ends `ok` only
with a non-empty one. -/
theorem dispatcher_deadline_decision (xid : Nat) (events : List ReadEvent) :
    (∀ (delivered : List RecvPacket) (numPackets : Nat) (rest : List ReadEvent),
        numPackets = delivered.length →
        sendAndReadLoop xid (ReadEvent.deadline :: rest) delivered numPackets =
          (delivered, if delivered.isEmpty then .deadlineExceeded else .ok)) ∧
    ((sendAndRead xid events).2 = .deadlineExceeded → (sendAndRead xid events).1 = []) ∧
    ((sendAndRead xid events).2 = .ok → (sendAndRead xid events).1 ≠ []) := by
  refine ⟨?_, (sendAndReadLoop_outcome xid events [] 0 rfl).1,
    (sendAndReadLoop_outcome xid events [] 0 rfl).2⟩
  intro delivered numPackets rest h
  cases delivered with
  | nil => simp at h; simp [sendAndReadLoop, h]
  | cons p ps =>
      have : numPackets > 0 := by rw [h]; simp
      simp [sendAndReadLoop, this]

/-- Witness for C6: a deadline firing after one delivered match ends the
attempt successfully; a whole attempt that times out with no match ends with
deadline-exceeded and an empty delivered list. -/
theorem dispatcher_deadline_decision_witness :
    sendAndReadLoop 7 [ReadEvent.deadline] [⟨7, 1⟩] 1 =
      ([⟨7, 1⟩], AttemptResult.ok) :=
  (dispatcher_deadline_decision 7 []).1 [⟨7, 1⟩] 1 [] rfl

/-- All packets delivered by the read loop match the outgoing TransactionID,
provided all packets delivered so far do. -/
lemma sendAndReadLoop_matches (xid : Nat) :
    ∀ (events : List ReadEvent) (delivered : List RecvPacket) (numPackets : Nat),
      (∀ p ∈ delivered, p.transactionID = xid) →
      ∀ p ∈ (sendAndReadLoop xid events delivered numPackets).1, p.transactionID = xid := by
  intro events
  induction events with
  | nil => intro delivered n h; simpa [sendAndReadLoop] using h
  | cons ev rest ih =>
      intro delivered n h
      cases ev with
      | deadline => simpa [sendAndReadLoop] using h
      | parentCanceled => simpa [sendAndReadLoop] using h
      | readTimeout => exact ih delivered n h
      | readError e => simpa [sendAndReadLoop] using h
      | badDecode => exact ih delivered n h
      | packet pkt blocked =>
          by_cases hx : pkt.transactionID ≠ xid
          · simpa [sendAndReadLoop, hx] using ih delivered n h
          · cases blocked with
            | true => simpa [sendAndReadLoop, hx] using h
            | false =>
                have hmatch : pkt.transactionID = xid := by
                  by_contra hc; exact hx hc
                refine ?_
                have h' : ∀ p ∈ delivered ++ [pkt], p.transactionID = xid := by
                  intro p hp
                  rcases List.mem_append.mp hp with hp | hp
                  · exact h p hp
                  · simp at hp; rw [hp]; exact hmatch
                simpa [sendAndReadLoop, hx] using ih (delivered ++ [pkt]) (n + 1) h'

/-- C7.  Every packet the dispatcher delivers on the output stream carries
the outgoing packet's TransactionID; an undecodable datagram, and a decoded
packet with a different TransactionID, are silently dropped — the loop
continues exactly as if the observation had not happened. -/
theorem dispatcher_filters_by_xid (xid : Nat) (events : List ReadEvent) :
    (∀ p ∈ (sendAndRead xid events).1, p.transactionID = xid) ∧
    (∀ (rest : List ReadEvent) (delivered : List RecvPacket) (n : Nat),
        sendAndReadLoop xid (ReadEvent.badDecode :: rest) delivered n =
          sendAndReadLoop xid rest delivered n) ∧
    (∀ (pkt : RecvPacket) (b : Bool) (rest : List ReadEvent)
        (delivered : List RecvPacket) (n : Nat),
        pkt.transactionID ≠ xid →
        sendAndReadLoop xid (ReadEvent.packet pkt b :: rest) delivered n =
          sendAndReadLoop xid rest delivered n) := by
  refine ⟨sendAndReadLoop_matches xid events [] 0 (by simp), ?_, ?_⟩
  · intro rest delivered n; rfl
  · intro pkt b rest delivered n hx
    simp [sendAndReadLoop, hx]

/-- Witness for C7: a packet with TransactionID 8 arriving while waiting for
TransactionID 7 is dropped and the loop continues unchanged. -/
theorem dispatcher_filters_by_xid_witness :
    sendAndReadLoop 7 [ReadEvent.packet ⟨8, 0⟩ false] [] 0 =
      sendAndReadLoop 7 [] [] 0 :=
  (dispatcher_filters_by_xid 7 []).2.2 ⟨8, 0⟩ false [] [] 0 (by decide)

/-- C3.  The Request packet built from an offer (or ack) copies the input's
TransactionID, CIAddr and SIAddr, sets Broadcast, carries the client's
hardware address, puts the input's YIAddr in the requested-IP-address option,
and carries a server-identifier option exactly when the input packet has
one. -/
theorem requestPacket_fields (chaddr : List Nat) (offer : Packet) :
    (requestPacket chaddr offer).transactionID = offer.transactionID ∧
    (requestPacket chaddr offer).ciaddr = offer.ciaddr ∧
    (requestPacket chaddr offer).siaddr = offer.siaddr ∧
    (requestPacket chaddr offer).broadcast = true ∧
    (requestPacket chaddr offer).chaddr = chaddr ∧
    optionsFind (requestPacket chaddr offer).options OptionRequestedIPAddress =
      some offer.yiaddr ∧
    ((optionsFind (requestPacket chaddr offer).options OptionServerIdentifier).isSome ↔
      (optionsFind offer.options OptionServerIdentifier).isSome) := by
  cases h : optionsFind offer.options OptionServerIdentifier with
  | none =>
      have hsid : getServerIdentifier offer.options = .error .optionNotPresent := by
        simp [getServerIdentifier, optionsGet, h]
      refine ⟨rfl, rfl, rfl, rfl, rfl, ?_, ?_⟩ <;>
        simp [requestPacket, newPacket, hsid, optionsAddRaw, optionsFind,
          OptionDHCPMessageType, OptionMaximumDHCPMessageSize,
          OptionRequestedIPAddress, OptionServerIdentifier, ipBytes, h]
  | some v =>
      by_cases hv : v.length = 0
      · have hsid : getServerIdentifier offer.options = .ok [] := by
          simp [getServerIdentifier, optionsGet, h, hv]
        refine ⟨rfl, rfl, rfl, rfl, rfl, ?_, ?_⟩ <;>
          simp [requestPacket, newPacket, hsid, optionsAddRaw, optionsFind,
            OptionDHCPMessageType, OptionMaximumDHCPMessageSize,
            OptionRequestedIPAddress, OptionServerIdentifier, ipBytes, h]
      · have hsid : getServerIdentifier offer.options = .ok v := by
          simp [getServerIdentifier, optionsGet, h, hv]
        refine ⟨rfl, rfl, rfl, rfl, rfl, ?_, ?_⟩ <;>
          simp [requestPacket, newPacket, hsid, optionsAddRaw, optionsFind,
            OptionDHCPMessageType, OptionMaximumDHCPMessageSize,
            OptionRequestedIPAddress, OptionServerIdentifier, ipBytes, h]

end Dhcp4
